import Mathlib

/-!
Verification of the Shoreline renderer (viewer/renderer pair) against its
natural-language specification.  The C++ sources are shallowly embedded:
machine integers become `Nat` (with explicit masking where 32-bit overflow
matters), floats become `ℚ` in a real-valued model, transcendental library
calls (`pow`, `sqrt`, `cos`, `sin`) become oracle parameters, and the two
wire records `RES` / `TILE` become structures.
-/

set_option maxHeartbeats 1000000

namespace Shoreline


/-- Wire record `RES` (src/h/tile.h): image resolution, tile edge,
sample target and worker count. -/
structure RES where
  xres : ℕ
  yres : ℕ
  tres : ℕ
  nsamples : ℕ
  nthreads : ℕ
  deriving Repr, DecidableEq


/-- `RES::tile_count` (src/h/tile.h): `((xres + tres - 1) / tres) * ((yres + tres - 1) / tres)`
with C integer division. -/
def RES.tile_count (r : RES) : ℕ :=
  ((r.xres + r.tres - 1) / r.tres) * ((r.yres + r.tres - 1) / r.tres)


/-- Wire record `TILE` (src/h/tile.h): spatial offset and size, sample index
`sidx`, worker-slot id `tid`. -/
structure TILE where
  xoff : ℕ
  yoff : ℕ
  xsize : ℕ
  ysize : ℕ
  sidx : ℕ
  tid : ℕ
  deriving Repr, DecidableEq


/-- Helper for `offsetsFrom`: structural recursion on a fuel bound so that
the definition reduces in the kernel.  `fuel ≥ limit - off` makes the fuel
irrelevant (`offsetsFromAux_congr`). -/
def offsetsFromAux (fuel off limit step : ℕ) : List ℕ :=
  match fuel with
  | 0 => []
  | fuel + 1 =>
      if 0 < step ∧ off < limit then off :: offsetsFromAux fuel (off + step) limit step
      else []


/-- The offsets visited by a C loop `for (off = start; off < limit; off += step)`.
Used to embed the two nested tile loops of `RENDER_VIEW::start_render`
(src/gui/render_view.cpp lines 706-715). -/
def offsetsFrom (off limit step : ℕ) : List ℕ :=
  offsetsFromAux (limit - off) off limit step


/-- The spatial tile queue built by `RENDER_VIEW::start_render`
(src/gui/render_view.cpp lines 706-715): iterate `yoff` then `xoff` in steps
of `tres`, clipping each tile's size at the image edge; `sidx` and `tid`
start at the `TILE` default of 0. -/
def startRenderTiles (r : RES) : List TILE :=
  (offsetsFrom 0 r.yres r.tres).flatMap (fun yoff =>
    (offsetsFrom 0 r.xres r.tres).map (fun xoff =>
      { xoff := xoff, yoff := yoff,
        xsize := min (r.xres - xoff) r.tres,
        ysize := min (r.yres - yoff) r.tres,
        sidx := 0, tid := 0 }))


/-- Pixel `(px, py)` lies inside tile `t`. -/
def tileContains (t : TILE) (px py : ℕ) : Bool :=
  decide (t.xoff ≤ px) && decide (px < t.xoff + t.xsize) &&
  decide (t.yoff ≤ py) && decide (py < t.yoff + t.ysize)


/-! ## C2: the demand-driven tile supply (`RENDER_VIEW::send_tile`) -/

/-- `RENDER_VIEW::send_tile` (src/gui/render_view.cpp lines 1182-1201) acting
on the FIFO queue `m_tiles : std::queue<TILE>`: pop the front, tag it with the
worker id `tid`, issue it, then increment the sample index and push the copy
to the BACK of the queue if the target `nsamples` is not yet reached.
Returns the issued tile (if any) and the new queue (head = front). -/
def send_tile (nsamples tid : ℕ) (q : List TILE) : Option TILE × List TILE :=
  match q with
  | [] => (none, [])
  | tile :: rest =>
      let issued : TILE := { tile with tid := tid }
      let next : TILE := { issued with sidx := issued.sidx + 1 }
      (some issued, if next.sidx < nsamples then rest ++ [next] else rest)


/-- The sequence of tile requests issued by successive `send_tile` calls,
one per worker id in `tids` (the ids with which `intile_event` /
`start_render` call `send_tile`). -/
def issueSeq (nsamples : ℕ) : List ℕ → List TILE → List TILE
  | [], _ => []
  | tid :: ts, q =>
      match send_tile nsamples tid q with
      | (none, q') => issueSeq nsamples ts q'
      | (some t, q') => t :: issueSeq nsamples ts q'


/-- The spatial identity of a tile request. -/
def TILE.spatial (t : TILE) : ℕ × ℕ := (t.xoff, t.yoff)


/-- C2 as stated: in the issued request sequence, all requests for one
spatial tile are contiguous (every sample index of a spatial tile is issued
before any request for the next spatial tile). -/
def SpatialTilesContiguous (seq : List TILE) : Prop :=
  ∀ i k j, (hik : i < k) → (hkj : k < j) → (hj : j < seq.length) →
    (seq.get ⟨i, by omega⟩).spatial = (seq.get ⟨j, hj⟩).spatial →
    (seq.get ⟨k, by omega⟩).spatial = (seq.get ⟨i, by omega⟩).spatial


/-- C2 claim, formalized: for every render with more than one spatial tile
and `nsamples ≥ 2`, the issued sequence keeps each spatial tile's samples
contiguous. -/
def C2Claim : Prop :=
  ∀ (r : RES) (tids : List ℕ),
    1 < (startRenderTiles r).length → 2 ≤ r.nsamples →
    SpatialTilesContiguous (issueSeq r.nsamples tids (startRenderTiles r))


/-- Queue invariant maintained by `send_tile`: sample indices are
nondecreasing from front to back, and any two queued sample indices differ
by at most one. -/
def QInv (q : List TILE) : Prop :=
  q.Pairwise (fun a b => a.sidx ≤ b.sidx) ∧
  ∀ a ∈ q, ∀ b ∈ q, a.sidx ≤ b.sidx + 1


/-! ## C4: the renderer worker loop (`SCENE::render`, scene.cpp 271-293) -/

/-- One renderer worker task (src/renderer/scene.cpp lines 274-292): loop
{read one `TILE` record; `if (tile.xsize == 0) break;`; render the tile;
write the same record to the completion channel}.  `stream` models the
successive records delivered by reads of the request pipe (at end-of-file
`read` returns 0, leaving the default-initialized record whose `xsize` is 0).
Returns the records written back and whether the loop exited via the break. -/
def workerRun : List TILE → List TILE × Bool
  | [] => ([], false)
  | t :: rest =>
      if t.xsize = 0 then ([], true)
      else
        let r := workerRun rest
        (t :: r.1, r.2)


/-- C4 as stated: every received record is rendered and reported, and the
loop never terminates based on the content of a received record. -/
def C4Claim : Prop :=
  ∀ stream : List TILE, (workerRun stream).1 = stream ∧ (workerRun stream).2 = false


/-! ## C5: the transient protocol keys (`RENDER_VIEW::start_render`) -/

/-- Minimal JSON value type for the flat scene parameter map. -/
inductive JVal where
  | num (n : ℤ)
  | str (s : String)
  deriving Repr, DecidableEq


/-- A flat JSON object (`nlohmann::json` object): association list with
unique first bindings. -/
def JMap := List (String × JVal)


/-- `scene[key] = v` on an `nlohmann::json` object: overwrite the existing
binding or append a new one. -/
def JMap.set (m : JMap) (k : String) (v : JVal) : JMap :=
  match m with
  | [] => [(k, v)]
  | (k', v') :: rest => if k' = k then (k', v) :: rest else (k', v') :: JMap.set rest k v


/-- Key lookup on the flat scene object. -/
def JMap.lookup (m : JMap) (k : String) : Option JVal :=
  match m with
  | [] => none
  | (k', v') :: rest => if k' = k then some v' else JMap.lookup rest k


/-- The scene-augmentation step of `RENDER_VIEW::start_render`
(src/gui/render_view.cpp lines 679-692): `auto scene = m_scene;` takes a
COPY of the in-memory scene map; the keys "outpipe", "inpipe" and
"shared_mem" are written into the copy; the copy is what is serialized to
the child's stdin.  Returns (JSON written to the child, `m_scene` after the
call). -/
def start_render_scene (m_scene : JMap) (outpipe inpipe : ℤ) (shared_mem : String) :
    JMap × JMap :=
  let scene := ((m_scene.set "outpipe" (.num outpipe)).set
      "inpipe" (.num inpipe)).set "shared_mem" (.str shared_mem)
  (scene, m_scene)


/-- `RENDER_VIEW::save` (src/gui/render_view.h lines 37-40) serializes the
in-memory scene map `m_scene`. -/
def render_view_save (m_scene : JMap) : JMap := m_scene


/-- C5 as stated: after `start_render`, the viewer's in-memory scene map
contains the three transient protocol keys, so `save` carries them. -/
def C5Claim : Prop :=
  ∀ (m : JMap) (o i : ℤ) (s : String),
    (render_view_save (start_render_scene m o i s).2).lookup "outpipe" ≠ none ∧
    (render_view_save (start_render_scene m o i s).2).lookup "inpipe" ≠ none ∧
    (render_view_save (start_render_scene m o i s).2).lookup "shared_mem" ≠ none


/-! ## C6: shared-memory slot indexing -/

/-- Index written by the renderer's tile finalization (scene.cpp lines
575-589): `m_shared_data[res.tres*res.tres*tile.tid + poff]` with
`poff = y*tile.xsize + x`. -/
def rendererShmIndex (r : RES) (t : TILE) (x y : ℕ) : ℕ :=
  r.tres * r.tres * t.tid + (y * t.xsize + x)


/-- Index read by the viewer's completion handler (render_view.cpp lines
1156-1162): scan-line source `m_shm_data + m_res.tres*m_res.tres*tile.tid +
y*tile.xsize`, offset by `x` inside the `memcpy` of `xsize` pixels. -/
def viewerShmIndex (r : RES) (t : TILE) (x y : ℕ) : ℕ :=
  r.tres * r.tres * t.tid + y * t.xsize + x


/-- Image position written by the viewer:
`m_image.get_scan(tile.yoff + y) + tile.xoff`, offset by `x`. -/
def viewerImageDest (t : TILE) (x y : ℕ) : ℕ × ℕ :=
  (t.xoff + x, t.yoff + y)


/-! ## C9: the shader table and name lookup -/

/-- The `std::find` position of `s` in `shader_names` (first match). -/
def findNamePos (names : List String) (s : String) : Option ℕ :=
  match names with
  | [] => none
  | n :: rest => if n = s then some 0 else (findNamePos rest s).map (· + 1)


/-- `BRDF::find_shader` (shading.h, src/unnamed/part_007 lines 52-56):
`std::distance` to the first matching name, or 0 when `std::find` reaches
the end. -/
def find_shader (names : List String) (s : String) : ℕ :=
  match findNamePos names s with
  | some i => i
  | none => 0


/-- The shader name list built by `BRDF::create_shaders`
(src/renderer/shading.cpp lines 174-198): four `push_back`s in fixed order. -/
def create_shader_names : List String := ["default", "branch", "leaf", "water"]


/-! ## C3: deterministic primary-ray sampling (`SCENE::fill_sample_caches`,
`SCENE::render_tile`) -/

/-- Modelled from the spec: the "seedable pseudo-random generator" of the
excluded third-party vector/color/math library (`Imath::Rand32`), which is
not part of this repository.  Its standard implementation initializes the
state as `(seed * 0xa5a573a5) ^ 0x5a5a5a5a` and steps it with the linear
congruence `state = 1664525*state + 1013904223`; `nexti()` returns the low
32 bits after stepping.  Only the low 32 bits of the 64-bit state influence
outputs, so the state is kept mod 2^32 here. -/
def rand32Init (seed : ℕ) : ℕ :=
  ((seed * 0xa5a573a5) % 2 ^ 32) ^^^ 0x5a5a5a5a


/-- Modelled from the spec: one `Imath::Rand32` state step (see `rand32Init`). -/
def rand32Next (s : ℕ) : ℕ :=
  (1664525 * s + 1013904223) % 2 ^ 32


/-- Modelled from the spec: the state after `k` `Imath::Rand32` steps, so the
`k`-th `nexti()` output (1-based) is `rand32After seed k`. -/
def rand32After (seed : ℕ) : ℕ → ℕ
  | 0 => rand32Init seed
  | k + 1 => rand32Next (rand32After seed k)


/-- `SCENE::fill_sample_caches` (scene.cpp lines 137-142): `seeds` receives
the first 16 `nexti()` outputs of a generator seeded with `sampling_seed`. -/
def seedsVal (sseed i : ℕ) : ℕ := rand32After sseed (i + 1)


/-- `SCENE::fill_sample_caches` (scene.cpp lines 144-149): after the 16
seed draws, `p_hash` entry `j` receives the next two `nexti()` outputs. -/
def pHashPair (sseed j : ℕ) : ℕ × ℕ :=
  (rand32After sseed (17 + 2 * j), rand32After sseed (18 + 2 * j))


/-- `SCENE::p_hash_eval` (scene.h lines 86-89): the 64×64 salt table wrapped
by bitmasking (`p_hash_bits = 6`). -/
def pHashEval (sseed px py : ℕ) : ℕ × ℕ :=
  pHashPair sseed ((py &&& 63) * 64 + (px &&& 63))


/-- `vandercorput` (scene.cpp lines 316-324): 32-bit reversal by shifts and
masks; each left shift is reduced mod 2^32 as on a `uint32_t`. -/
def vandercorput (n : ℕ) : ℕ :=
  let n := ((n <<< 16) % 2 ^ 32) ||| (n >>> 16)
  let n := ((n &&& 0x00ff00ff) <<< 8) ||| ((n &&& 0xff00ff00) >>> 8)
  let n := ((n &&& 0x0f0f0f0f) <<< 4) ||| ((n &&& 0xf0f0f0f0) >>> 4)
  let n := ((n &&& 0x33333333) <<< 2) ||| ((n &&& 0xcccccccc) >>> 2)
  let n := ((n &&& 0x55555555) <<< 1) ||| ((n &&& 0xaaaaaaaa) >>> 1)
  n


/-- Loop body of `sobol2` (scene.cpp lines 306-314); the fuel bound of 32
iterations is exact for any 32-bit `n`, since `n` is right-shifted once per
iteration and the loop stops at `n = 0`. -/
def sobol2Aux : ℕ → ℕ → ℕ → ℕ → ℕ
  | 0, _, _, x => x
  | fuel + 1, n, v, x =>
      if n = 0 then x
      else sobol2Aux fuel (n >>> 1) (v ^^^ (v >>> 1))
        (if n &&& 1 = 1 then x ^^^ v else x)


/-- `sobol2` (scene.cpp lines 306-314). -/
def sobol2 (n : ℕ) : ℕ := sobol2Aux 32 n (1 <<< 31) 0


/-- `sample_to_float` (scene.cpp lines 300-304): XOR with the seed, then
divide by 2^32 (real-valued model of the float division). -/
def sampleToFloat (n seed : ℕ) : ℚ := ((n ^^^ seed : ℕ) : ℚ) / (2 ^ 32 : ℚ)


/-- The per-pixel sample offset `(sx, sy)` computed for tile-local pixel
`(x, y)` of tile `t` in `SCENE::render_tile` (scene.cpp lines 362-369). -/
def primarySampleOffset (sseed : ℕ) (t : TILE) (x y : ℕ) : ℚ × ℚ :=
  let px := x + t.xoff
  let py := y + t.yoff
  let h := pHashEval sseed px py
  let isx := h.1 ^^^ vandercorput t.sidx
  let isy := h.2 ^^^ sobol2 t.sidx
  (sampleToFloat isx (seedsVal sseed 0), sampleToFloat isy (seedsVal sseed 1))


/-! ## Shading model (shading.cpp, final revision): rational-valued model.
Floats are modelled by `ℚ`; the transcendental C library calls (`sqrtf`,
`cos`, `sin`, `pow`) and the constant `M_PI` are oracle parameters bundled
in `MathOps`, so every definition stays executable. -/

/-- A 3-vector / RGB color (`Imath::V3f` / `Imath::C3f`) in the rational
model. -/
structure Vec3 where
  x : ℚ
  y : ℚ
  z : ℚ
  deriving Repr, DecidableEq


/-- Componentwise sum. -/
def Vec3.add (a b : Vec3) : Vec3 := ⟨a.x + b.x, a.y + b.y, a.z + b.z⟩


/-- Scalar multiple. -/
def Vec3.smul (a : Vec3) (q : ℚ) : Vec3 := ⟨a.x * q, a.y * q, a.z * q⟩


/-- Componentwise (color) product. -/
def Vec3.cmul (a b : Vec3) : Vec3 := ⟨a.x * b.x, a.y * b.y, a.z * b.z⟩


/-- Dot product. -/
def Vec3.dot (a b : Vec3) : ℚ := a.x * b.x + a.y * b.y + a.z * b.z


/-- Cross product (`Imath::Vec3::cross`). -/
def Vec3.cross (a b : Vec3) : Vec3 :=
  ⟨a.y * b.z - a.z * b.y, a.z * b.x - a.x * b.z, a.x * b.y - a.y * b.x⟩


/-- Negation. -/
def Vec3.neg (a : Vec3) : Vec3 := ⟨-a.x, -a.y, -a.z⟩


/-- The zero vector / black color. -/
def Vec3.zero : Vec3 := ⟨0, 0, 0⟩


/-- Oracle for the C math library calls on the rational model. -/
structure MathOps where
  sqrt : ℚ → ℚ
  cos : ℚ → ℚ
  sin : ℚ → ℚ
  pi : ℚ
  pow : ℚ → ℚ → ℚ


/-- `get_basis` (shading.cpp lines 11-24): an orthonormal frame around `n`;
`u = normalize(0, n.z, -n.y)` when `n.y` or `n.z` is nonzero, else the fixed
frame `(0,1,0), (0,0,1)`. -/
def get_basis (ops : MathOps) (n : Vec3) : Vec3 × Vec3 :=
  if n.y ≠ 0 ∨ n.z ≠ 0 then
    let len := ops.sqrt (n.z ^ 2 + n.y ^ 2)
    let u : Vec3 := ⟨0, n.z / len, -n.y / len⟩
    (u, u.cross n)
  else (⟨0, 1, 0⟩, ⟨0, 0, 1⟩)


/-- `Imath::reflect(s, t) = 2 t̂ (t̂·s) − s`; the callers pass a normalized
`t`, for which this is `2 (t·s) t − s`. -/
def reflectDir (s t : Vec3) : Vec3 :=
  (t.smul (2 * t.dot s)).add s.neg


/-- `BRDF` (shading.h in part_007): color, transmit ratio and the two flags. -/
structure BRDF where
  clr : Vec3
  transmit_ratio : ℚ
  reflect : Bool
  smooth_N : Bool


/-- `SUN_SKY_LIGHT` (shading.h in part_007): the fields set up by the
constructor. -/
structure SUN_SKY_LIGHT where
  sun_clr : Vec3
  sky_1_clr : Vec3
  sky_2_clr : Vec3
  sky_3_clr : Vec3
  sun_dir : Vec3
  sun_angle : ℚ
  sun_h : ℚ
  sun_intensity : ℚ
  sun_u : Vec3
  sun_v : Vec3


/-- `BRDF::sample` (shading.cpp lines 205-239).  Returns `(clr, pdf, dir)`. -/
def BRDF.sample (ops : MathOps) (b : BRDF) (n d : Vec3) (sx sy : ℚ) :
    Vec3 × ℚ × Vec3 :=
  let uv := get_basis ops n
  let a := sx * 2 * ops.pi
  if b.reflect then
    (b.clr.smul 1000000, 1000000, reflectDir d n)
  else if sy < b.transmit_ratio then
    let sy := sy / b.transmit_ratio
    let r := ops.sqrt sy
    let u := uv.1.smul (ops.cos a * r)
    let v := uv.2.smul (ops.sin a * r)
    let rz := ops.sqrt (1 - sy)
    let dir := (u.add v).add (n.smul rz).neg
    let pdf := 2 * rz * b.transmit_ratio
    (b.clr.smul pdf, pdf, dir)
  else
    let sy := (sy - b.transmit_ratio) / (1 - b.transmit_ratio)
    let r := ops.sqrt sy
    let u := uv.1.smul (ops.cos a * r)
    let v := uv.2.smul (ops.sin a * r)
    let rz := ops.sqrt (1 - sy)
    let dir := (u.add v).add (n.smul rz)
    let pdf := 2 * rz * (1 - b.transmit_ratio)
    (b.clr.smul pdf, pdf, dir)


/-- `BRDF::evaluate` (shading.cpp lines 241-260).  Returns `(clr, pdf)`;
the incoming direction `d` is accepted and ignored, as in the source. -/
def BRDF.evaluate (b : BRDF) (dir n _d : Vec3) : Vec3 × ℚ :=
  if b.reflect then
    (b.clr.smul 0, 0)
  else if n.dot dir > 0 then
    (b.clr.smul (2 * n.dot dir * (1 - b.transmit_ratio)),
      2 * n.dot dir * (1 - b.transmit_ratio))
  else
    (b.clr.smul (-2 * n.dot dir * b.transmit_ratio),
      -2 * n.dot dir * b.transmit_ratio)


/-- `SUN_SKY_LIGHT::sample` (shading.cpp lines 108-120).  Returns
`(clr, pdf, dir)`. -/
def SUN_SKY_LIGHT.sample (ops : MathOps) (L : SUN_SKY_LIGHT) (sx sy : ℚ) :
    Vec3 × ℚ × Vec3 :=
  let pdf := 1 / L.sun_h
  let clr := L.sun_clr.smul pdf
  let h := sy * L.sun_h
  let a := sx * 2 * ops.pi
  let rz := 1 - h
  let dir := (((L.sun_u.smul (ops.cos a)).add (L.sun_v.smul (ops.sin a))).smul
      (ops.sqrt (1 - rz * rz))).add (L.sun_dir.smul rz)
  (clr, pdf, dir)


/-- `SUN_SKY_LIGHT::evaluate` (shading.cpp lines 122-138).  Returns
`(clr, pdf)`: the sun disc's radiance/pdf inside the disc, the three-stop
sky gradient with pdf 0 outside it. -/
def SUN_SKY_LIGHT.evaluate (L : SUN_SKY_LIGHT) (dir : Vec3) : Vec3 × ℚ :=
  if dir.dot L.sun_dir > 1 - L.sun_h then
    let pdf := 1 / L.sun_h
    (L.sun_clr.smul pdf, pdf)
  else
    let ratio1 := (1 - |dir.z|) * (1 - |dir.z|)
    let ratio2 := ratio1 * ratio1 * ratio1
    let clr := (L.sky_2_clr.smul (1 - ratio2)).add (L.sky_3_clr.smul ratio2)
    ((L.sky_1_clr.smul (1 - ratio1)).add (clr.smul ratio1), 0)


/-- `BRDF::mis_sample` (shading.cpp lines 262-296): one BRDF sample and one
light sample, each evaluated under the other's density and weighted by the
power heuristic `w = pdf / (pdf² + other_pdf²)` (one factor of the
strategy's own pdf is already folded into its sampled color); each weight
branch is guarded by `pdf > 0`.  Returns `(b_clr, b_dir, l_clr, l_dir)`. -/
def BRDF.mis_sample (ops : MathOps) (b : BRDF) (L : SUN_SKY_LIGHT)
    (n d : Vec3) (bsx bsy lsx lsy : ℚ) : Vec3 × Vec3 × Vec3 × Vec3 :=
  let bs := b.sample ops n d bsx bsy
  let ls := L.sample ops lsx lsy
  let b_clr := bs.1
  let b_pdf := bs.2.1
  let b_dir := bs.2.2
  let l_clr := ls.1
  let l_pdf := ls.2.1
  let l_dir := ls.2.2
  let ble := b.evaluate l_dir n d
  let lbe := L.evaluate b_dir
  let b_clr :=
    if b_pdf > 0 then
      b_clr.cmul (lbe.1.smul (b_pdf / (b_pdf * b_pdf + lbe.2 * lbe.2)))
    else b_clr
  let l_clr :=
    if l_pdf > 0 then
      l_clr.cmul (ble.1.smul (l_pdf / (l_pdf * l_pdf + ble.2 * ble.2)))
    else l_clr
  (b_clr, b_dir, l_clr, l_dir)


/-- The four densities appearing in `BRDF::mis_sample`: the BRDF strategy's
own pdf `b_pdf`, the light's density at the BRDF direction `lb_pdf`, the
light strategy's own pdf `l_pdf`, and the BRDF's density at the light
direction `bl_pdf`. -/
def misPdfs (ops : MathOps) (b : BRDF) (L : SUN_SKY_LIGHT)
    (n d : Vec3) (bsx bsy lsx lsy : ℚ) : ℚ × ℚ × ℚ × ℚ :=
  let bs := b.sample ops n d bsx bsy
  let ls := L.sample ops lsx lsy
  (bs.2.1, (L.evaluate bs.2.2).2, ls.2.1, (b.evaluate ls.2.2 n d).2)


/-- The effective power-heuristic weight of a strategy with own density `p`
against the other strategy's density `q`: the `p/(p²+q²)` factor applied in
`mis_sample` times the factor of `p` already folded into the sampled color. -/
def powerWeight (p q : ℚ) : ℚ := p * p / (p * p + q * q)


/-- C8 as stated: whenever both strategies' own pdfs are strictly positive,
the two effective power-heuristic weights sum into `(0, 1]`; and a strategy
with own pdf 0 contributes exactly zero. -/
def C8Claim : Prop :=
  (∀ (ops : MathOps) (b : BRDF) (L : SUN_SKY_LIGHT) (n d : Vec3) (bsx bsy lsx lsy : ℚ),
    0 < (misPdfs ops b L n d bsx bsy lsx lsy).1 →
    0 < (misPdfs ops b L n d bsx bsy lsx lsy).2.2.1 →
    0 < powerWeight (misPdfs ops b L n d bsx bsy lsx lsy).1
          (misPdfs ops b L n d bsx bsy lsx lsy).2.1 +
        powerWeight (misPdfs ops b L n d bsx bsy lsx lsy).2.2.1
          (misPdfs ops b L n d bsx bsy lsx lsy).2.2.2 ∧
      powerWeight (misPdfs ops b L n d bsx bsy lsx lsy).1
          (misPdfs ops b L n d bsx bsy lsx lsy).2.1 +
        powerWeight (misPdfs ops b L n d bsx bsy lsx lsy).2.2.1
          (misPdfs ops b L n d bsx bsy lsx lsy).2.2.2 ≤ 1) ∧
  (∀ (ops : MathOps) (b : BRDF) (L : SUN_SKY_LIGHT) (n d : Vec3) (bsx bsy lsx lsy : ℚ),
    ((misPdfs ops b L n d bsx bsy lsx lsy).1 = 0 →
      (b.mis_sample ops L n d bsx bsy lsx lsy).1 = Vec3.zero) ∧
    ((misPdfs ops b L n d bsx bsy lsx lsy).2.2.1 = 0 →
      (b.mis_sample ops L n d bsx bsy lsx lsy).2.2.1 = Vec3.zero))


/-- A concrete instantiation of the math oracle: it agrees with the true
real functions at every argument reached in the closed statements below
(`sqrt 0 = 0`, `sqrt 1 = 1`, and `cos`/`sin` are only read at angle 0 or
multiplied by 0). -/
def ratOps : MathOps where
  sqrt q := if q = 0 then 0 else if q = 1 then 1 else 0
  cos _ := 1
  sin _ := 0
  pi := 355 / 113
  pow _ _ := 1


/-- A diffuse BRDF (the "branch" shader shape: no transmit, no flags). -/
def brdf0 : BRDF := { clr := ⟨1, 1, 1⟩, transmit_ratio := 0, reflect := false, smooth_N := false }


/-- A sun/sky light with the sun on the x-axis; `sun_h = 1/2` stands in for
the constructor's `1 - cos(32')` (any value in `(0,1)` gives the same
branch structure below). -/
def light0 : SUN_SKY_LIGHT :=
  { sun_clr := ⟨1, 1, 1⟩, sky_1_clr := ⟨1, 1, 1⟩, sky_2_clr := ⟨1, 1, 1⟩,
    sky_3_clr := ⟨1, 1, 1⟩, sun_dir := ⟨1, 0, 0⟩, sun_angle := 1 / 100,
    sun_h := 1 / 2, sun_intensity := 2, sun_u := ⟨0, 1, 0⟩, sun_v := ⟨0, 0, 1⟩ }


/-! ## C7: the procedural tree (`TREE::build` / `TREE::construct`,
tree.cpp lines 193-322).  The per-call `Imath::Rand32 lrand(seed)` draws are
modelled by an oracle indexed by the call's seed and the draw's position in
the call (`nextf` draw 0 = branch-ratio jitter; terminal draw 1 = leaf
jitter; branching draws 1, 2 = spread/twist jitter and `nexti` draws 3, 4 =
child seeds). -/

/-- Oracle for the per-call seeded PRNG draws of `TREE::construct`. -/
structure RandOracle where
  nextf : ℕ → ℕ → ℚ → ℚ → ℚ
  nexti : ℕ → ℕ → ℕ


/-- The tree parameters read by `TREE::build` / `TREE::construct`. -/
structure TreeParams where
  branch_ratio : ℚ
  branch_ratio_variance : ℚ
  branch_length_exponent : ℚ
  da_vinci_exponent : ℚ
  branch_angle_variance : ℚ
  branch_spread_angle : ℚ
  branch_twist_angle : ℚ
  tree_height : ℚ
  trunk_radius_ratio : ℚ
  levels : ℚ
  leaf_area_ratio : ℚ
  tree_seed : ℕ


/-- `radians` (common.h): degrees to radians through the π oracle. -/
def radiansQ (ops : MathOps) (deg : ℚ) : ℚ := deg * (ops.pi / 180)


/-- A `GROUP_NODE` transform as set by `TREE::construct` / `TREE::build`:
either the branch transform `translate(0,0,len) ∘ rotate(spread, 0, twist)`
(angles in degrees) or the uniform root scale. -/
inductive XForm where
  | ident
  | branch (spread twist len : ℚ)
  | scale (s : ℚ)
  deriving Repr


/-- Row-vector application of an `XForm` (Imath convention `p' = p * M`,
rotation about x then z, then translation along z). -/
def XForm.apply (ops : MathOps) : XForm → Vec3 → Vec3
  | .ident, p => p
  | .scale s, p => p.smul s
  | .branch spread twist len, p =>
      let cx := ops.cos (radiansQ ops spread)
      let sx := ops.sin (radiansQ ops spread)
      let cz := ops.cos (radiansQ ops twist)
      let sz := ops.sin (radiansQ ops twist)
      ⟨p.x * cz + p.y * (-sz * cx) + p.z * (sz * sx),
       p.x * sz + p.y * (cz * cx) + p.z * (-cz * sx),
       p.y * sx + p.z * cx + len⟩


/-- `POLY_CURVE` (tree.h): the branch polyline of (position, radius) pairs
and its leaf marker radius (`m_leaf_radius`, default 0.01). -/
structure PolyCurve where
  pos_r : List (Vec3 × ℚ)
  leaf_radius : ℚ
  deriving Repr


/-- Scene node (`NODE`/`GROUP_NODE`/`POLY_CURVE`, tree.h): a transform with
children, or one branch polyline. -/
inductive TNode where
  | group (xform : XForm) (children : List TNode)
  | curve (pc : PolyCurve)
  deriving Repr


/-- The outcome of one `TREE::construct` call: the nodes added to `local`,
the (position, radius) pairs appended to the caller's trunk polyline (in the
caller's frame), the leaf radius assigned to that polyline if a terminal
call on this path set it, and the returned mechanical weight and
center-of-mass. -/
structure ConstructResult where
  children : List TNode
  trunkExt : List (Vec3 × ℚ)
  leafSet : Option ℚ
  weight : ℚ
  com : ℚ


/-- `TREE::construct` (tree.cpp lines 222-322), fuel-indexed: the C++
recursion carries no fuel, and the termination theorem below shows that
`⌈leaf_count⌉ + 1` fuel always suffices for parameters in their published
ranges, so the fueled function agrees with the C++ recursion there.
Terminal case (`branch_ratio·leaf_count ≤ 1`): two trunk vertices and the
jittered leaf radius.  Branching case: the da Vinci area split, the smaller
child on a fresh polyline under its transform node, the larger child
continuing the same trunk (its appended points mapped by the larger child's
transform, as in the second pass of lines 295-315), and the weight /
center-of-mass combination of lines 292-293 and 318-321. -/
def construct (ops : MathOps) (rng : RandOracle) (P : TreeParams)
    (leafRadiusBase : ℚ) (fuel : ℕ) (seed : ℕ) (radius leafCount : ℚ) :
    Option ConstructResult :=
  match fuel with
  | 0 => none
  | fuel + 1 =>
    let branch_ratio := P.branch_ratio *
      rng.nextf seed 0 (1 - P.branch_ratio_variance) 1
    let length0 := ops.pow radius P.branch_length_exponent * branch_ratio
    if branch_ratio * leafCount ≤ 1 then
      let length := length0 * leafCount
      let stem := radius * radius * length
      some { children := [],
             trunkExt := [(⟨0, 0, 0⟩, radius), (⟨0, 0, length⟩, radius)],
             leafSet := some (leafRadiusBase * rng.nextf seed 1 (1/2) (5/4)),
             weight := 0 + stem,
             com := ((0 + length) * 0 + length * (1/2) * stem) / (0 + stem) }
    else
      let area := ops.pow radius P.da_vinci_exponent
      let spread := P.branch_spread_angle +
        rng.nextf seed 1 (-P.branch_angle_variance) P.branch_angle_variance
      let twist := P.branch_twist_angle +
        rng.nextf seed 2 (-P.branch_angle_variance) P.branch_angle_variance
      let r0 := ops.pow (area * branch_ratio) (1 / P.da_vinci_exponent)
      let r1 := ops.pow (area * (1 - branch_ratio)) (1 / P.da_vinci_exponent)
      let l0 := leafCount * branch_ratio
      let l1 := leafCount * (1 - branch_ratio)
      match construct ops rng P leafRadiusBase fuel (rng.nexti seed 3) r0 l0,
            construct ops rng P leafRadiusBase fuel (rng.nexti seed 4) r1 l1 with
      | some c0, some c1 =>
          let wc := c0.weight * c0.com + c1.weight * c1.com
          let angle0 := spread * (c1.weight * c1.com) / wc
          let angle1 := spread * (c0.weight * c0.com) / wc
          let t0 := XForm.branch angle0 twist length0
          let t1 := XForm.branch angle1 (twist + 180) length0
          let branchCurve : PolyCurve :=
            { pos_r := c0.trunkExt, leaf_radius := c0.leafSet.getD (1/100) }
          let node0 := TNode.group t0 (c0.children ++ [TNode.curve branchCurve])
          let node1 := TNode.group t1 c1.children
          let weight2 := c0.weight + c1.weight
          let com2 := wc / weight2
          let stem := radius * radius * length0
          some { children := [node0, node1],
                 trunkExt := (⟨0, 0, 0⟩, radius) ::
                   c1.trunkExt.map (fun pr => (XForm.apply ops t1 pr.1, pr.2)),
                 leafSet := c1.leafSet,
                 weight := weight2 + stem,
                 com := ((com2 + length0) * weight2 + length0 * (1/2) * stem) /
                   (weight2 + stem) }
      | _, _ => none


/-- Arc length of a polyline (`(p[i+1] - p[i]).length()` summed), used by
`TREE::build` to normalize the tree height. -/
def polyLen (ops : MathOps) : List (Vec3 × ℚ) → ℚ
  | a :: b :: rest =>
      ops.sqrt ((b.1.x - a.1.x) ^ 2 + (b.1.y - a.1.y) ^ 2 + (b.1.z - a.1.z) ^ 2) +
        polyLen ops (b :: rest)
  | _ => 0


/-- `TREE::build` (tree.cpp lines 193-220): trunk radius and leaf-radius
base from the parameters, `leaf_count = 10^levels`, the recursive
construction (with the fuel shown sufficient by the termination theorem),
the trunk polyline added as the last child of the root, and the root scale
`height / trunk_len`. -/
def TREE.build (ops : MathOps) (rng : RandOracle) (P : TreeParams) :
    Option (XForm × List TNode) :=
  let height := P.tree_height
  let radius := P.trunk_radius_ratio * height
  let leaf_count := ops.pow 10 P.levels
  let leafRadiusBase := ops.sqrt (P.leaf_area_ratio / leaf_count) * height
  match construct ops rng P leafRadiusBase (Nat.ceil leaf_count + 1)
      P.tree_seed radius leaf_count with
  | none => none
  | some res =>
      let trunk : PolyCurve :=
        { pos_r := res.trunkExt, leaf_radius := res.leafSet.getD (1/100) }
      some (XForm.scale (height / polyLen ops res.trunkExt),
        res.children ++ [TNode.curve trunk])


/-- A parameter set inside every published range, with `levels = 0`. -/
def paramsLevels0 : TreeParams :=
  { branch_ratio := 2/5, branch_ratio_variance := 3/4,
    branch_length_exponent := 7/10, da_vinci_exponent := 2,
    branch_angle_variance := 10, branch_spread_angle := 40,
    branch_twist_angle := 130, tree_height := 5/2,
    trunk_radius_ratio := 1/50, levels := 0, leaf_area_ratio := 1,
    tree_seed := 0 }


/-- A concrete math oracle and PRNG for the C7 witness: `nextf` returns the
low end of the requested range, `pow` is the constant 1 (correct at the one
probed input `10^0`). -/
def treeOps0 : MathOps :=
  { sqrt := fun _ => 1, cos := fun _ => 1, sin := fun _ => 0,
    pi := 355/113, pow := fun _ _ => 1 }


/-- Low-end PRNG draws for the C7 witness. -/
def rng0 : RandOracle := { nextf := fun _ _ a _ => a, nexti := fun _ _ => 0 }

/-! ## Theorems -/


theorem offsetsFromAux_congr {limit step : ℕ} :
    ∀ f₁ f₂ off, limit - off ≤ f₁ → limit - off ≤ f₂ →
    offsetsFromAux f₁ off limit step = offsetsFromAux f₂ off limit step := by
  intro f₁
  induction f₁ with
  | zero =>
    intro f₂ off h1 _
    match f₂ with
    | 0 => rfl
    | f₂ + 1 =>
      rw [offsetsFromAux, offsetsFromAux, if_neg]
      omega
  | succ f₁ ih =>
    intro f₂ off h1 h2
    match f₂ with
    | 0 =>
      rw [offsetsFromAux, offsetsFromAux, if_neg]
      omega
    | f₂ + 1 =>
      rw [offsetsFromAux, offsetsFromAux]
      by_cases hg : 0 < step ∧ off < limit
      · rw [if_pos hg, if_pos hg, ih f₂ (off + step) (by omega) (by omega)]
      · rw [if_neg hg, if_neg hg]


/-- `offsetsFrom` satisfies the loop's natural unfolding equation. -/
theorem offsetsFrom_unfold (off limit step : ℕ) :
    offsetsFrom off limit step =
      if 0 < step ∧ off < limit then off :: offsetsFrom (off + step) limit step
      else [] := by
  rw [offsetsFrom, offsetsFrom]
  by_cases hg : 0 < step ∧ off < limit
  · have h1 : limit - off = (limit - off - 1) + 1 := by omega
    rw [h1, offsetsFromAux, if_pos hg, if_pos hg]
    rw [offsetsFromAux_congr (limit - off - 1) (limit - (off + step)) (off + step)
      (by omega) (by omega)]
  · rw [if_neg hg]
    match h : limit - off with
    | 0 => rfl
    | d + 1 => rw [offsetsFromAux, if_neg hg]


theorem offsetsFromAux_bounds :
    ∀ fuel off limit step, ∀ x ∈ offsetsFromAux fuel off limit step, off ≤ x ∧ x < limit := by
  intro fuel
  induction fuel with
  | zero => intro off limit step x hx; simp [offsetsFromAux] at hx
  | succ fuel ih =>
    intro off limit step x hx
    rw [offsetsFromAux] at hx
    by_cases hg : 0 < step ∧ off < limit
    · rw [if_pos hg] at hx
      rcases List.mem_cons.1 hx with rfl | hx
      · exact ⟨le_refl _, hg.2⟩
      · have := ih (off + step) limit step x hx
        omega
    · rw [if_neg hg] at hx
      simp at hx


theorem offsetsFrom_bounds :
    ∀ off limit step, ∀ x ∈ offsetsFrom off limit step, off ≤ x ∧ x < limit :=
  fun off limit step => offsetsFromAux_bounds _ off limit step


theorem ceil_div_step {d step : ℕ} (hs : 0 < step) (hd : 0 < d) :
    (d + step - 1) / step = (d - step + step - 1) / step + 1 := by
  have e2 : d + step - 1 = (d - 1) + step := by omega
  rcases le_or_lt d step with h | h
  · rw [Nat.div_eq_of_lt (show d - step + step - 1 < step by omega),
        e2, Nat.add_div_right _ hs, Nat.div_eq_of_lt (show d - 1 < step by omega)]
  · have e3 : d - step + step - 1 = d - 1 := by omega
    rw [e2, e3, Nat.add_div_right _ hs]


theorem offsetsFromAux_length :
    ∀ fuel off limit step, 0 < step → limit - off ≤ fuel →
    (offsetsFromAux fuel off limit step).length = (limit - off + step - 1) / step := by
  intro fuel
  induction fuel with
  | zero =>
    intro off limit step hs hf
    rw [offsetsFromAux, List.length_nil,
      Nat.div_eq_of_lt (show limit - off + step - 1 < step by omega)]
  | succ fuel ih =>
    intro off limit step hs hf
    rw [offsetsFromAux]
    by_cases hg : 0 < step ∧ off < limit
    · rw [if_pos hg, List.length_cons, ih (off + step) limit step hs (by omega)]
      have e : limit - (off + step) = limit - off - step := by omega
      rw [e, ← ceil_div_step hs (by omega)]
    · rw [if_neg hg, List.length_nil,
        Nat.div_eq_of_lt (show limit - off + step - 1 < step by omega)]


theorem offsetsFrom_length :
    ∀ off limit step, 0 < step →
    (offsetsFrom off limit step).length = (limit - off + step - 1) / step :=
  fun off limit step hs => offsetsFromAux_length _ off limit step hs (le_refl _)


/-- In the offset list, exactly one loop offset `xoff` satisfies
`xoff ≤ px < xoff + min (limit - xoff) step` for a pixel `px < limit`. -/
theorem offsetsFromAux_count_one :
    ∀ fuel off limit step px, 0 < step → limit - off ≤ fuel → off ≤ px → px < limit →
    (offsetsFromAux fuel off limit step).countP
      (fun xoff => decide (xoff ≤ px) && decide (px < xoff + min (limit - xoff) step)) = 1 := by
  intro fuel
  induction fuel with
  | zero =>
    intro off limit step px hs hf hop hpl
    omega
  | succ fuel ih =>
    intro off limit step px hs hf hop hpl
    rw [offsetsFromAux, if_pos (show 0 < step ∧ off < limit by omega), List.countP_cons]
    by_cases hcase : px < off + step
    · have hpred : (decide (off ≤ px) && decide (px < off + min (limit - off) step)) = true := by
        simp only [Bool.and_eq_true, decide_eq_true_eq]
        omega
      have hrest : (offsetsFromAux fuel (off + step) limit step).countP
          (fun xoff => decide (xoff ≤ px) && decide (px < xoff + min (limit - xoff) step)) = 0 := by
        apply List.countP_eq_zero.2
        intro a ha
        have hb := offsetsFromAux_bounds _ _ _ _ a ha
        simp only [Bool.and_eq_true, decide_eq_true_eq, not_and]
        intro hle
        omega
      rw [hrest, hpred]
      simp
    · have hpred : (decide (off ≤ px) && decide (px < off + min (limit - off) step)) = false := by
        simp only [Bool.and_eq_false_iff, decide_eq_false_iff_not]
        omega
      rw [hpred, ih (off + step) limit step px hs (by omega) (by omega) hpl]
      simp


theorem offsetsFrom_count_one :
    ∀ off limit step px, 0 < step → off ≤ px → px < limit →
    (offsetsFrom off limit step).countP
      (fun xoff => decide (xoff ≤ px) && decide (px < xoff + min (limit - xoff) step)) = 1 :=
  fun off limit step px hs => offsetsFromAux_count_one _ off limit step px hs (le_refl _)


theorem sum_map_ite_countP (l : List ℕ) (p : ℕ → Bool) :
    (l.map (fun a => if p a then 1 else 0)).sum = l.countP p := by
  induction l with
  | nil => rfl
  | cons a l ih =>
    rw [List.map_cons, List.sum_cons, List.countP_cons, ih]
    omega


/-- C1: for every resolution `(w,h)` with `w ≥ 1`, `h ≥ 1` and tile edge
`t ≥ 1`, the spatial tile queue built by `RENDER_VIEW::start_render` exactly
partitions `[0,w) × [0,h)`: every pixel lies in exactly one queued tile, no
tile extends past the image, and the number of tiles pushed equals
`RES::tile_count() = ceil(w/t) * ceil(h/t)`. -/
theorem tile_grid_partition (r : RES)
    (hw : 1 ≤ r.xres) (hh : 1 ≤ r.yres) (ht : 1 ≤ r.tres) :
    (∀ px py, px < r.xres → py < r.yres →
        (startRenderTiles r).countP (fun t => tileContains t px py) = 1) ∧
    (∀ t ∈ startRenderTiles r, t.xoff + t.xsize ≤ r.xres ∧ t.yoff + t.ysize ≤ r.yres) ∧
    (startRenderTiles r).length = r.tile_count := by
  refine ⟨?_, ?_, ?_⟩
  · intro px py hpx hpy
    rw [startRenderTiles]
    simp only [List.flatMap, List.countP_flatten, List.map_map, Function.comp]
    have hfun : ∀ yoff : ℕ,
        (offsetsFrom 0 r.xres r.tres).countP
          (fun xoff => tileContains
            { xoff := xoff, yoff := yoff,
              xsize := min (r.xres - xoff) r.tres,
              ysize := min (r.yres - yoff) r.tres, sidx := 0, tid := 0 } px py) =
        if (decide (yoff ≤ py) &&
            decide (py < yoff + min (r.yres - yoff) r.tres)) = true then 1 else 0 := by
      intro yoff
      by_cases hy : yoff ≤ py ∧ py < yoff + min (r.yres - yoff) r.tres
      · have hy' : (decide (yoff ≤ py) && decide (py < yoff + min (r.yres - yoff) r.tres)) = true := by
          simp only [Bool.and_eq_true, decide_eq_true_eq]
          omega
        rw [hy', if_pos rfl]
        have := offsetsFrom_count_one 0 r.xres r.tres px ht (Nat.zero_le _) hpx
        rw [← this]
        apply List.countP_congr
        intro xoff _
        simp only [tileContains, Bool.and_eq_true, decide_eq_true_eq]
        omega
      · have hy' : (decide (yoff ≤ py) && decide (py < yoff + min (r.yres - yoff) r.tres)) = false := by
          simp only [Bool.and_eq_false_iff, decide_eq_false_iff_not]
          omega
        rw [hy', if_neg (by simp)]
        apply List.countP_eq_zero.2
        intro xoff _
        simp only [tileContains, Bool.and_eq_true, decide_eq_true_eq]
        omega
    simp only [Function.comp_def, List.countP_map]
    simp only [hfun]
    rw [sum_map_ite_countP]
    exact offsetsFrom_count_one 0 r.yres r.tres py ht (Nat.zero_le _) hpy
  · intro t htm
    rw [startRenderTiles, List.mem_flatMap] at htm
    obtain ⟨yoff, hy, htm⟩ := htm
    rw [List.mem_map] at htm
    obtain ⟨xoff, hx, rfl⟩ := htm
    have hxb := offsetsFrom_bounds _ _ _ _ hx
    have hyb := offsetsFrom_bounds _ _ _ _ hy
    simp only
    omega
  · rw [startRenderTiles]
    simp only [List.flatMap, List.length_flatten, List.map_map, Function.comp_def,
      List.length_map]
    rw [List.map_const', List.sum_replicate, smul_eq_mul]
    rw [offsetsFrom_length 0 r.xres r.tres ht, offsetsFrom_length 0 r.yres r.tres ht]
    simp only [Nat.sub_zero]
    rw [RES.tile_count, Nat.mul_comm]


/-- Witness for C1 at the concrete resolution 3×2 with tile edge 2. -/
theorem tile_grid_partition_witness :
    ((startRenderTiles ⟨3, 2, 2, 1, 1⟩).countP (fun t => tileContains t 2 1) = 1) ∧
    ((startRenderTiles ⟨3, 2, 2, 1, 1⟩).length = RES.tile_count ⟨3, 2, 2, 1, 1⟩) := by
  have h := tile_grid_partition ⟨3, 2, 2, 1, 1⟩ (by decide) (by decide) (by decide)
  exact ⟨h.1 2 1 (by decide) (by decide), h.2.2⟩


/-- C2 counterexample: with the 2-tile grid of a 2×1 image (tile edge 1) and
`nsamples = 2`, the issue sequence is `[T0@0, T1@0, T0@1, T1@1]` — the second
request is for the *other* spatial tile while tile 0 still has a pending
sample, because `send_tile` re-enqueues at the back of the FIFO queue.  So
the supply does NOT cycle one spatial tile through its samples first. -/
theorem send_tile_not_contiguous : ¬ C2Claim := by
  intro h
  have h2 := h ⟨2, 1, 1, 2, 1⟩ [0, 0, 0, 0] (by decide) (by decide)
  have h3 := h2 0 1 2 (by decide) (by decide) (by decide) (by decide)
  exact absurd h3 (by decide)


theorem qinv_startRenderTiles (r : RES) : QInv (startRenderTiles r) := by
  have hz : ∀ t ∈ startRenderTiles r, t.sidx = 0 := by
    intro t htm
    rw [startRenderTiles, List.mem_flatMap] at htm
    obtain ⟨yoff, _, htm⟩ := htm
    rw [List.mem_map] at htm
    obtain ⟨xoff, _, rfl⟩ := htm
    rfl
  constructor
  · exact List.pairwise_iff_forall_sublist.2 (by
      intro a b hs
      have hm := hs.subset
      have ha := hz a (hm (List.mem_cons_self a [b]))
      have hb := hz b (hm (List.mem_cons_of_mem a (List.mem_cons_self b [])))
      omega)
  · intro a ha b hb
    have := hz a ha
    have := hz b hb
    omega


theorem qinv_send_tile {ns tid : ℕ} {q : List TILE} (h : QInv q) :
    QInv (send_tile ns tid q).2 ∧
    ∀ t ∈ (send_tile ns tid q).2, ∀ s, (send_tile ns tid q).1 = some s → s.sidx ≤ t.sidx := by
  match q with
  | [] => exact ⟨h, by intro t ht; simp [send_tile] at ht⟩
  | t :: rest =>
    obtain ⟨hp, hb⟩ := h
    rw [List.pairwise_cons] at hp
    obtain ⟨hhead, hrest⟩ := hp
    by_cases hlt : t.sidx + 1 < ns
    · have hq2 : (send_tile ns tid (t :: rest)).2 =
          rest ++ [{ t with tid := tid, sidx := t.sidx + 1 }] := by
        simp [send_tile, hlt]
      refine ⟨⟨?_, ?_⟩, ?_⟩
      · rw [hq2, List.pairwise_append]
        refine ⟨hrest, List.pairwise_singleton _ _, ?_⟩
        intro a ha b hbm
        rw [List.mem_singleton] at hbm
        subst hbm
        have := hb a (List.mem_cons_of_mem t ha) t (List.mem_cons_self t rest)
        simpa using this
      · intro a ha b hbm
        rw [hq2, List.mem_append] at ha hbm
        rcases ha with ha | ha <;> rcases hbm with hbm | hbm
        · exact hb a (List.mem_cons_of_mem t ha) b (List.mem_cons_of_mem t hbm)
        · rw [List.mem_singleton] at hbm
          subst hbm
          have := hb a (List.mem_cons_of_mem t ha) t (List.mem_cons_self t rest)
          simpa using by omega
        · rw [List.mem_singleton] at ha
          subst ha
          have := hhead b hbm
          simpa using by omega
        · rw [List.mem_singleton] at ha
          rw [List.mem_singleton] at hbm
          subst ha; subst hbm
          omega
      · intro u hu s hs
        rw [hq2, List.mem_append] at hu
        simp only [send_tile] at hs
        rw [Option.some.injEq] at hs
        subst hs
        rcases hu with hu | hu
        · exact hhead u hu
        · rw [List.mem_singleton] at hu
          subst hu
          simp
    · have hq2 : (send_tile ns tid (t :: rest)).2 = rest := by
        simp [send_tile, hlt]
      refine ⟨⟨?_, ?_⟩, ?_⟩
      · rw [hq2]; exact hrest
      · rw [hq2]
        intro a ha b hbm
        exact hb a (List.mem_cons_of_mem t ha) b (List.mem_cons_of_mem t hbm)
      · intro u hu s hs
        simp only [send_tile] at hs
        rw [Option.some.injEq] at hs
        subst hs
        rw [hq2] at hu
        exact hhead u hu


theorem issueSeq_sidx_lb {ns : ℕ} :
    ∀ (tids : List ℕ) (q : List TILE) (c : ℕ), (∀ u ∈ q, c ≤ u.sidx) →
    ∀ v ∈ issueSeq ns tids q, c ≤ v.sidx := by
  intro tids
  induction tids with
  | nil => intro q c _ v hv; simp [issueSeq] at hv
  | cons tid ts ih =>
    intro q c hc v hv
    match hq : q with
    | [] =>
      rw [issueSeq] at hv
      simp only [send_tile] at hv
      exact ih [] c (by simp) v hv
    | t :: rest =>
      rw [issueSeq] at hv
      simp only [send_tile] at hv
      have hrec : ∀ u ∈ (if t.sidx + 1 < ns then
          rest ++ [{ t with tid := tid, sidx := t.sidx + 1 }] else rest), c ≤ u.sidx := by
        intro u hu
        by_cases hlt : t.sidx + 1 < ns
        · rw [if_pos hlt, List.mem_append] at hu
          rcases hu with hu | hu
          · exact hc u (List.mem_cons_of_mem t hu)
          · rw [List.mem_singleton] at hu
            subst hu
            have := hc t (List.mem_cons_self t rest)
            simpa using by omega
        · rw [if_neg hlt] at hu
          exact hc u (List.mem_cons_of_mem t hu)
      rcases List.mem_cons.1 hv with rfl | hv
      · exact hc t (List.mem_cons_self t rest)
      · exact ih _ c hrec v hv


/-- C2 amended: `send_tile` pops the FIFO front, tags it with the given
worker id, and re-enqueues the sample-incremented copy at the BACK of the
queue; consequently the sample indices of issued requests are nondecreasing:
every spatial tile is issued at sample `s` before any tile is issued at
sample `s+1` (round-robin across spatial tiles), not one tile's full sample
set at a time. -/
theorem send_tile_issues_samples_in_rounds (r : RES) (tids : List ℕ) :
    (issueSeq r.nsamples tids (startRenderTiles r)).Pairwise
      (fun a b => a.sidx ≤ b.sidx) := by
  have main : ∀ (ts : List ℕ) (q : List TILE), QInv q →
      (issueSeq r.nsamples ts q).Pairwise (fun a b => a.sidx ≤ b.sidx) := by
    intro ts
    induction ts with
    | nil => intro q _; simp [issueSeq]
    | cons tid ts ih =>
      intro q hq
      match q with
      | [] =>
        rw [issueSeq]
        simp only [send_tile]
        exact ih [] hq
      | t :: rest =>
        rw [issueSeq]
        have hstep := @qinv_send_tile r.nsamples tid _ hq
        simp only [send_tile] at hstep ⊢
        rw [List.pairwise_cons]
        constructor
        · intro v hv
          have hlb := @issueSeq_sidx_lb r.nsamples ts _ t.sidx
            (fun u hu => hstep.2 u hu
              { t with tid := tid } rfl) v hv
          exact hlb
        · exact ih _ hstep.1
  exact main tids _ (qinv_startRenderTiles r)


/-- C4 counterexample: a received record with `xsize = 0` terminates the
loop (scene.cpp line 282) — a sentinel is recognized, and the record is
neither rendered nor reported. -/
theorem worker_loop_has_sentinel : ¬ C4Claim := by
  intro h
  have := h [{ xoff := 0, yoff := 0, xsize := 0, ysize := 0, sidx := 0, tid := 0 }]
  simp [workerRun] at this


/-- C4 amended: each worker renders and reports every received record up to,
but excluding, the first record whose `xsize` is 0; such a record (in
particular the default-initialized record left by a zero-byte end-of-file
read) acts as a sentinel that terminates the loop, so the loop only runs
forever when no `xsize = 0` record arrives. -/
theorem worker_loop_processes_until_sentinel (stream : List TILE) :
    (workerRun stream).1 = stream.takeWhile (fun t => decide ¬(t.xsize = 0)) ∧
    (workerRun stream).2 = stream.any (fun t => decide (t.xsize = 0)) := by
  induction stream with
  | nil => exact ⟨rfl, rfl⟩
  | cons t rest ih =>
    by_cases h : t.xsize = 0
    · simp [workerRun, h, List.takeWhile]
    · simp only [workerRun, if_neg h, List.takeWhile, List.any_cons]
      simp [h, ih.1, ih.2]


/-- C5 counterexample: starting a render from an empty scene map leaves
`m_scene` without any of the three keys — `start_render` writes them into a
local copy (`auto scene = m_scene;`), not into the member map. -/
theorem transient_keys_not_in_saved_scene : ¬ C5Claim := by
  intro h
  have := (h [] 5 6 "/slrender1").1
  exact this rfl


theorem JMap.lookup_set_same (m : JMap) (k : String) (v : JVal) :
    (m.set k v).lookup k = some v := by
  induction m with
  | nil => simp [JMap.set, JMap.lookup]
  | cons p rest ih =>
    by_cases h : p.1 = k
    · simp [JMap.set, JMap.lookup, h]
    · simp [JMap.set, JMap.lookup, h, ih]


theorem JMap.lookup_set_other (m : JMap) (k k' : String) (v : JVal) (h : k ≠ k') :
    (m.set k v).lookup k' = m.lookup k' := by
  induction m with
  | nil => simp [JMap.set, JMap.lookup, h]
  | cons p rest ih =>
    obtain ⟨pk, pv⟩ := p
    simp only [JMap.set]
    by_cases hp : pk = k
    · rw [if_pos hp]
      have h1 : ¬pk = k' := by rw [hp]; exact h
      simp only [JMap.lookup, if_neg h1]
    · rw [if_neg hp]
      by_cases hp' : pk = k'
      · simp only [JMap.lookup, if_pos hp']
      · simp only [JMap.lookup, if_neg hp', ih]


/-- C5 amended: `start_render` writes the three transient protocol keys into
a local copy of the scene, which is what the child receives on stdin; the
viewer's in-memory map — and hence the JSON produced by `RENDER_VIEW::save`
during an active render — is left exactly as it was, and carries the keys
only if they were already present. -/
theorem transient_keys_written_to_copy (m : JMap) (o i : ℤ) (s : String) :
    (start_render_scene m o i s).1.lookup "shared_mem" = some (.str s) ∧
    (start_render_scene m o i s).1.lookup "inpipe" = some (.num i) ∧
    (start_render_scene m o i s).1.lookup "outpipe" =
      ((m.set "outpipe" (.num o)).lookup "outpipe") ∧
    (start_render_scene m o i s).2 = m ∧
    render_view_save (start_render_scene m o i s).2 = m := by
  refine ⟨?_, ?_, ?_, rfl, rfl⟩
  · exact JMap.lookup_set_same _ _ _
  · rw [start_render_scene]
    simp only
    rw [JMap.lookup_set_other _ _ _ _ (by decide), JMap.lookup_set_same]
  · rw [start_render_scene]
    simp only
    rw [JMap.lookup_set_other _ _ _ _ (by decide), JMap.lookup_set_other _ _ _ _ (by decide)]


/-- C6: for every tile with `1 ≤ xsize ≤ tres`, `1 ≤ ysize ≤ tres` and
worker id `tid < nthreads`, the renderer writes pixel `(x,y)` of the tile at
exactly the shared-memory index the viewer reads it from; every such index
stays inside worker slot `tid`; and the viewer stores the value at image
position `(xoff+x, yoff+y)`. -/
theorem shm_slot_agreement (r : RES) (t : TILE) (x y : ℕ)
    (hx2 : 1 ≤ t.xsize ∧ t.xsize ≤ r.tres)
    (hy2 : 1 ≤ t.ysize ∧ t.ysize ≤ r.tres)
    (htid : t.tid < r.nthreads) (hx : x < t.xsize) (hy : y < t.ysize) :
    rendererShmIndex r t x y = viewerShmIndex r t x y ∧
    r.tres * r.tres * t.tid ≤ rendererShmIndex r t x y ∧
    rendererShmIndex r t x y < r.tres * r.tres * (t.tid + 1) ∧
    viewerImageDest t x y = (t.xoff + x, t.yoff + y) := by
  refine ⟨by rw [rendererShmIndex, viewerShmIndex, Nat.add_assoc], ?_, ?_, rfl⟩
  · rw [rendererShmIndex]
    omega
  · rw [rendererShmIndex]
    have h1 : y * t.xsize + x < (y + 1) * t.xsize := by
      rw [Nat.succ_mul]
      omega
    have h2 : (y + 1) * t.xsize ≤ t.ysize * t.xsize :=
      Nat.mul_le_mul_right _ (by omega)
    have h3 : t.ysize * t.xsize ≤ r.tres * r.tres :=
      Nat.mul_le_mul hy2.2 hx2.2
    have : r.tres * r.tres * (t.tid + 1) = r.tres * r.tres * t.tid + r.tres * r.tres := by
      ring
    omega


/-- Witness for C6 at a concrete clipped tile. -/
theorem shm_slot_agreement_witness :
    rendererShmIndex ⟨800, 600, 64, 16, 4⟩ ⟨768, 576, 32, 24, 0, 3⟩ 31 23 =
      viewerShmIndex ⟨800, 600, 64, 16, 4⟩ ⟨768, 576, 32, 24, 0, 3⟩ 31 23 ∧
    64 * 64 * 3 ≤ rendererShmIndex ⟨800, 600, 64, 16, 4⟩ ⟨768, 576, 32, 24, 0, 3⟩ 31 23 ∧
    rendererShmIndex ⟨800, 600, 64, 16, 4⟩ ⟨768, 576, 32, 24, 0, 3⟩ 31 23 < 64 * 64 * (3 + 1) ∧
    viewerImageDest ⟨768, 576, 32, 24, 0, 3⟩ 31 23 = (768 + 31, 576 + 23) :=
  shm_slot_agreement ⟨800, 600, 64, 16, 4⟩ ⟨768, 576, 32, 24, 0, 3⟩ 31 23
    (by decide) (by decide) (by decide) (by decide) (by decide)


theorem findNamePos_absent (names : List String) (s : String) (h : s ∉ names) :
    findNamePos names s = none := by
  induction names with
  | nil => rfl
  | cons n rest ih =>
    rw [List.mem_cons, not_or] at h
    rw [findNamePos, if_neg (fun hn => h.1 hn.symm), ih h.2]
    rfl


/-- C9: on the table built by `create_shaders`, `find_shader` returns
0/1/2/3 for "default"/"branch"/"leaf"/"water", and for every name list and
every absent name it returns index 0, independent of the list's size. -/
theorem find_shader_indices :
    find_shader create_shader_names "default" = 0 ∧
    find_shader create_shader_names "branch" = 1 ∧
    find_shader create_shader_names "leaf" = 2 ∧
    find_shader create_shader_names "water" = 3 ∧
    ∀ (names : List String) (s : String), s ∉ names → find_shader names s = 0 := by
  refine ⟨by decide, by decide, by decide, by decide, ?_⟩
  intro names s h
  rw [find_shader, findNamePos_absent names s h]


/-- Witness for C9's absent-name clause on a concrete list. -/
theorem find_shader_indices_witness :
    find_shader ["default", "branch", "leaf", "water"] "glass" = 0 :=
  find_shader_indices.2.2.2.2 ["default", "branch", "leaf", "water"] "glass" (by decide)


/-- C3: the primary-ray sample offset is a pure function of
`(sampling_seed, pixel x, pixel y, sample index)` — identical across runs
and independent of which tile the pixel falls in — and two distinct
`sampling_seed` values produce different sample offsets for some
(pixel, sample index) pair. -/
theorem sampling_deterministic :
    (∀ (sseed : ℕ) (t₁ t₂ : TILE) (x₁ y₁ x₂ y₂ : ℕ),
      t₁.sidx = t₂.sidx → x₁ + t₁.xoff = x₂ + t₂.xoff → y₁ + t₁.yoff = y₂ + t₂.yoff →
      primarySampleOffset sseed t₁ x₁ y₁ = primarySampleOffset sseed t₂ x₂ y₂) ∧
    primarySampleOffset 0 ⟨0, 0, 64, 64, 0, 0⟩ 0 0 ≠
      primarySampleOffset 1 ⟨0, 0, 64, 64, 0, 0⟩ 0 0 := by
  constructor
  · intro sseed t₁ t₂ x₁ y₁ x₂ y₂ hs hx hy
    rw [primarySampleOffset, primarySampleOffset, hs, hx, hy]
  · intro heq
    have h1 : sampleToFloat ((pHashEval 0 0 0).1 ^^^ vandercorput 0) (seedsVal 0 0) =
        sampleToFloat ((pHashEval 1 0 0).1 ^^^ vandercorput 0) (seedsVal 1 0) :=
      congrArg Prod.fst heq
    rw [sampleToFloat, sampleToFloat] at h1
    field_simp at h1
    have h3 : ((pHashEval 0 0 0).1 ^^^ vandercorput 0) ^^^ seedsVal 0 0 =
        ((pHashEval 1 0 0).1 ^^^ vandercorput 0) ^^^ seedsVal 1 0 := by
      exact_mod_cast h1
    exact absurd h3 (by decide)


/-- Witness for C3: the same pixel (70, 70) at sample index 5 through two
different tiles (an interior position of the tile at (64, 64) and the corner
of a tile at (70, 70) held by another worker) receives the same offset. -/
theorem sampling_deterministic_witness :
    primarySampleOffset 3 ⟨64, 64, 64, 64, 5, 0⟩ 6 6 =
      primarySampleOffset 3 ⟨70, 70, 2, 2, 5, 1⟩ 0 0 :=
  sampling_deterministic.1 3 ⟨64, 64, 64, 64, 5, 0⟩ ⟨70, 70, 2, 2, 5, 1⟩ 6 6 0 0
    (by decide) (by decide) (by decide)


theorem misPdfs_concrete :
    misPdfs ratOps brdf0 light0 ⟨0, 0, 1⟩ ⟨0, 0, 1⟩ 0 0 0 0 = (2, 0, 2, 0) := by
  norm_num [misPdfs, BRDF.sample, SUN_SKY_LIGHT.sample, BRDF.evaluate,
    SUN_SKY_LIGHT.evaluate, get_basis, ratOps, brdf0, light0, Vec3.smul,
    Vec3.add, Vec3.neg, Vec3.cross, Vec3.dot]


/-- C8 counterexample: with a diffuse BRDF sampling straight up (own pdf 2)
while the sun lies on the horizon-orthogonal axis (light's density at the
BRDF direction is 0) and the light sample points along the horizon (BRDF's
density there is 0), both effective weights are 1, so their sum is 2 — the
two power-heuristic ratios use different denominators and do not sum into
`(0,1]`. -/
theorem mis_weights_sum_exceeds_one : ¬ C8Claim := by
  intro h
  have h1 := h.1 ratOps brdf0 light0 ⟨0, 0, 1⟩ ⟨0, 0, 1⟩ 0 0 0 0
  rw [misPdfs_concrete] at h1
  have h2 := h1 (by norm_num) (by norm_num)
  norm_num [powerWeight] at h2


theorem brdf_sample_clr_eq (ops : MathOps) (b : BRDF) (n d : Vec3) (sx sy : ℚ) :
    (b.sample ops n d sx sy).1 = b.clr.smul (b.sample ops n d sx sy).2.1 := by
  unfold BRDF.sample
  split_ifs <;> rfl


theorem light_sample_clr_eq (ops : MathOps) (L : SUN_SKY_LIGHT) (sx sy : ℚ) :
    (L.sample ops sx sy).1 = L.sun_clr.smul (L.sample ops sx sy).2.1 := rfl


theorem Vec3.smul_zero_eq (a : Vec3) : a.smul 0 = Vec3.zero := by
  simp [Vec3.smul, Vec3.zero]


/-- C8 amended: when a strategy's own pdf is strictly positive, its
effective power-heuristic weight lies in `(0, 1]` — so, with both own pdfs
positive, the sum of the two weights lies in `(0, 2]`, not `(0, 1]`: the two
ratios have different denominators (`b_pdf` pairs with the light's density
at the BRDF direction, `l_pdf` with the BRDF's density at the light
direction) and both can reach 1 simultaneously.  When a strategy's own pdf
is 0 its returned contribution is exactly the zero color. -/
theorem mis_sample_weight_bounds (ops : MathOps) (b : BRDF) (L : SUN_SKY_LIGHT)
    (n d : Vec3) (bsx bsy lsx lsy : ℚ) :
    (0 < (misPdfs ops b L n d bsx bsy lsx lsy).1 →
      0 < powerWeight (misPdfs ops b L n d bsx bsy lsx lsy).1
            (misPdfs ops b L n d bsx bsy lsx lsy).2.1 ∧
      powerWeight (misPdfs ops b L n d bsx bsy lsx lsy).1
            (misPdfs ops b L n d bsx bsy lsx lsy).2.1 ≤ 1) ∧
    (0 < (misPdfs ops b L n d bsx bsy lsx lsy).2.2.1 →
      0 < powerWeight (misPdfs ops b L n d bsx bsy lsx lsy).2.2.1
            (misPdfs ops b L n d bsx bsy lsx lsy).2.2.2 ∧
      powerWeight (misPdfs ops b L n d bsx bsy lsx lsy).2.2.1
            (misPdfs ops b L n d bsx bsy lsx lsy).2.2.2 ≤ 1) ∧
    ((misPdfs ops b L n d bsx bsy lsx lsy).1 = 0 →
      (b.mis_sample ops L n d bsx bsy lsx lsy).1 = Vec3.zero) ∧
    ((misPdfs ops b L n d bsx bsy lsx lsy).2.2.1 = 0 →
      (b.mis_sample ops L n d bsx bsy lsx lsy).2.2.1 = Vec3.zero) := by
  have hw : ∀ p q : ℚ, 0 < p → 0 < powerWeight p q ∧ powerWeight p q ≤ 1 := by
    intro p q hp
    have hpp : 0 < p * p := mul_pos hp hp
    have hqq : 0 ≤ q * q := mul_self_nonneg q
    constructor
    · exact div_pos hpp (by linarith)
    · rw [powerWeight, div_le_one (by linarith)]
      linarith
  refine ⟨hw _ _, hw _ _, ?_, ?_⟩
  · intro h0
    simp only [misPdfs] at h0
    simp only [BRDF.mis_sample]
    rw [h0, if_neg (lt_irrefl 0), brdf_sample_clr_eq, h0, Vec3.smul_zero_eq]
  · intro h0
    simp only [misPdfs] at h0
    simp only [BRDF.mis_sample]
    rw [h0, if_neg (lt_irrefl 0), light_sample_clr_eq, h0, Vec3.smul_zero_eq]


/-- Witness for C8's amended bounds at the concrete configuration of the
counterexample, where both own pdfs equal 2 and both weights equal 1. -/
theorem mis_sample_weight_bounds_witness :
    0 < powerWeight (misPdfs ratOps brdf0 light0 ⟨0, 0, 1⟩ ⟨0, 0, 1⟩ 0 0 0 0).1
          (misPdfs ratOps brdf0 light0 ⟨0, 0, 1⟩ ⟨0, 0, 1⟩ 0 0 0 0).2.1 ∧
    powerWeight (misPdfs ratOps brdf0 light0 ⟨0, 0, 1⟩ ⟨0, 0, 1⟩ 0 0 0 0).1
          (misPdfs ratOps brdf0 light0 ⟨0, 0, 1⟩ ⟨0, 0, 1⟩ 0 0 0 0).2.1 ≤ 1 :=
  (mis_sample_weight_bounds ratOps brdf0 light0 ⟨0, 0, 1⟩ ⟨0, 0, 1⟩ 0 0 0 0).1
    (by rw [misPdfs_concrete]; norm_num)


/-- C10: `BRDF::evaluate` returns a nonnegative pdf and the base color
scaled by that pdf: reflective shaders evaluate to pdf 0, front-hemisphere
directions yield `2 (n·dir) (1 − transmit)`, back-hemisphere directions
yield `−2 (n·dir) · transmit`, and with a nonnegative base color the
evaluated contribution is never negative. -/
theorem brdf_evaluate_contract (b : BRDF) (n dir d : Vec3)
    (ht0 : 0 ≤ b.transmit_ratio) (ht1 : b.transmit_ratio ≤ 1)
    (hn : n.dot n = 1) (hdir : dir.dot dir = 1)
    (hc : 0 ≤ b.clr.x ∧ 0 ≤ b.clr.y ∧ 0 ≤ b.clr.z) :
    0 ≤ (b.evaluate dir n d).2 ∧
    (b.evaluate dir n d).1 = b.clr.smul (b.evaluate dir n d).2 ∧
    (b.reflect = true → (b.evaluate dir n d).2 = 0) ∧
    (b.reflect = false → 0 < n.dot dir →
      (b.evaluate dir n d).2 = 2 * n.dot dir * (1 - b.transmit_ratio)) ∧
    (b.reflect = false → ¬0 < n.dot dir →
      (b.evaluate dir n d).2 = -2 * n.dot dir * b.transmit_ratio) ∧
    0 ≤ (b.evaluate dir n d).1.x ∧ 0 ≤ (b.evaluate dir n d).1.y ∧
    0 ≤ (b.evaluate dir n d).1.z := by
  obtain ⟨hcx, hcy, hcz⟩ := hc
  have hpdf : 0 ≤ (b.evaluate dir n d).2 ∧
      (b.evaluate dir n d).1 = b.clr.smul (b.evaluate dir n d).2 := by
    unfold BRDF.evaluate
    split_ifs with hb hrz
    · exact ⟨le_refl 0, rfl⟩
    · refine ⟨?_, rfl⟩
      show 0 ≤ 2 * n.dot dir * (1 - b.transmit_ratio)
      exact mul_nonneg (by linarith) (by linarith)
    · refine ⟨?_, rfl⟩
      show 0 ≤ -2 * n.dot dir * b.transmit_ratio
      push_neg at hrz
      exact mul_nonneg (by linarith) ht0
  refine ⟨hpdf.1, hpdf.2, ?_, ?_, ?_, ?_, ?_, ?_⟩
  · intro hb
    simp [BRDF.evaluate, hb]
  · intro hb hrz
    simp [BRDF.evaluate, hb, hrz]
  · intro hb hrz
    simp [BRDF.evaluate, hb, hrz]
  · rw [hpdf.2, Vec3.smul]
    exact mul_nonneg hcx hpdf.1
  · rw [hpdf.2, Vec3.smul]
    exact mul_nonneg hcy hpdf.1
  · rw [hpdf.2, Vec3.smul]
    exact mul_nonneg hcz hpdf.1


/-- Witness for C10: the "leaf" shader shape with transmit ratio 1/4 probed
with a back-hemisphere unit direction. -/
theorem brdf_evaluate_contract_witness :
    0 ≤ (BRDF.evaluate ⟨⟨1/2, 3/4, 1/4⟩, 1/4, false, false⟩ ⟨0, 0, -1⟩ ⟨0, 0, 1⟩ ⟨0, 1, 0⟩).2 ∧
    0 ≤ (BRDF.evaluate ⟨⟨1/2, 3/4, 1/4⟩, 1/4, false, false⟩ ⟨0, 0, -1⟩ ⟨0, 0, 1⟩ ⟨0, 1, 0⟩).1.x := by
  have h := brdf_evaluate_contract ⟨⟨1/2, 3/4, 1/4⟩, 1/4, false, false⟩
    ⟨0, 0, 1⟩ ⟨0, 0, -1⟩ ⟨0, 1, 0⟩ (by norm_num) (by norm_num)
    (by norm_num [Vec3.dot]) (by norm_num [Vec3.dot]) (by norm_num)
  exact ⟨h.1, h.2.2.2.2.2.1⟩


/-- C7: for all tree parameters within their published ranges and every
admissible PRNG draw sequence, the `TREE::construct` recursion terminates in
finite depth — fuel `⌈leaf_count⌉ + 1` always suffices, because every path
reaches the terminal threshold `branch_ratio·leaf_count ≤ 1`; and for
`levels = 0` (`leaf_count = 10^0 = 1`) the built tree is a single unbranched
two-vertex trunk polyline carrying exactly one leaf marker (the terminal
case's jittered leaf radius). -/
theorem tree_construct_terminates :
    (∀ (ops : MathOps) (rng : RandOracle) (P : TreeParams),
      1/1000 ≤ P.branch_ratio → P.branch_ratio ≤ 1/2 →
      0 ≤ P.branch_ratio_variance → P.branch_ratio_variance ≤ 1 →
      0 ≤ P.branch_length_exponent → P.branch_length_exponent ≤ 1 →
      9/5 ≤ P.da_vinci_exponent → P.da_vinci_exponent ≤ 23/10 →
      (∀ s k a b, a ≤ b → a ≤ rng.nextf s k a b ∧ rng.nextf s k a b ≤ b) →
      ∀ (lrb : ℚ) (fuel seed : ℕ) (radius leafCount : ℚ),
        Nat.ceil leafCount + 1 ≤ fuel →
        (construct ops rng P lrb fuel seed radius leafCount).isSome = true) ∧
    (∀ (ops : MathOps) (rng : RandOracle) (P : TreeParams),
      1/1000 ≤ P.branch_ratio → P.branch_ratio ≤ 1/2 →
      0 ≤ P.branch_ratio_variance → P.branch_ratio_variance ≤ 1 →
      0 ≤ P.branch_length_exponent → P.branch_length_exponent ≤ 1 →
      9/5 ≤ P.da_vinci_exponent → P.da_vinci_exponent ≤ 23/10 →
      (∀ s k a b, a ≤ b → a ≤ rng.nextf s k a b ∧ rng.nextf s k a b ≤ b) →
      P.levels = 0 → ops.pow 10 0 = 1 →
      ∃ s pc, TREE.build ops rng P = some (XForm.scale s, [TNode.curve pc]) ∧
        pc.pos_r.length = 2 ∧
        pc.leaf_radius = ops.sqrt (P.leaf_area_ratio / ops.pow 10 P.levels) *
          P.tree_height * rng.nextf P.tree_seed 1 (1/2) (5/4)) := by
  constructor
  · intro ops rng P hbr1 hbr2 hv1 hv2 hbl1 hbl2 hdv1 hdv2 hrng lrb fuel
    induction fuel using Nat.strong_induction_on with
    | _ fuel ih =>
      intro seed radius leafCount hfuel
      obtain ⟨f, rfl⟩ : ∃ f, fuel = f + 1 := ⟨fuel - 1, by omega⟩
      simp only [construct]
      have hj := hrng seed 0 (1 - P.branch_ratio_variance) 1 (by linarith)
      set br := P.branch_ratio * rng.nextf seed 0 (1 - P.branch_ratio_variance) 1
        with hbrdef
      have hbr0 : 0 ≤ br := mul_nonneg (by linarith) (by linarith)
      have hbrh : br ≤ 1/2 :=
        le_trans (mul_le_of_le_one_right (by linarith) hj.2) hbr2
      by_cases hterm : br * leafCount ≤ 1
      · rw [if_pos hterm]
        rfl
      · rw [if_neg hterm]
        push_neg at hterm
        have hlpos : 0 < leafCount := by nlinarith
        have hl2 : 2 < leafCount := by nlinarith
        have hl0 : leafCount * br < leafCount - 1 := by nlinarith
        have hl1 : leafCount * (1 - br) < leafCount - 1 := by nlinarith
        have h3 : 3 ≤ Nat.ceil leafCount := by
          have := Nat.lt_ceil.2 (show ((2 : ℕ) : ℚ) < leafCount by exact_mod_cast hl2)
          omega
        have hcast : ((Nat.ceil leafCount - 1 : ℕ) : ℚ) =
            (Nat.ceil leafCount : ℚ) - 1 := by
          push_cast [Nat.cast_sub (show 1 ≤ Nat.ceil leafCount by omega)]
          ring
        have hle : leafCount ≤ (Nat.ceil leafCount : ℚ) := Nat.le_ceil _
        have hcl0 : Nat.ceil (leafCount * br) + 1 ≤ f := by
          have : Nat.ceil (leafCount * br) ≤ Nat.ceil leafCount - 1 := by
            apply Nat.ceil_le.2
            rw [hcast]
            linarith
          omega
        have hcl1 : Nat.ceil (leafCount * (1 - br)) + 1 ≤ f := by
          have : Nat.ceil (leafCount * (1 - br)) ≤ Nat.ceil leafCount - 1 := by
            apply Nat.ceil_le.2
            rw [hcast]
            linarith
          omega
        have hs0 := ih f (by omega) (rng.nexti seed 3)
          (ops.pow (ops.pow radius P.da_vinci_exponent * br) (1 / P.da_vinci_exponent))
          (leafCount * br) hcl0
        have hs1 := ih f (by omega) (rng.nexti seed 4)
          (ops.pow (ops.pow radius P.da_vinci_exponent * (1 - br)) (1 / P.da_vinci_exponent))
          (leafCount * (1 - br)) hcl1
        obtain ⟨c0, hc0⟩ := Option.isSome_iff_exists.1 hs0
        obtain ⟨c1, hc1⟩ := Option.isSome_iff_exists.1 hs1
        rw [hc0, hc1]
        rfl
  · intro ops rng P hbr1 hbr2 hv1 hv2 hbl1 hbl2 hdv1 hdv2 hrng hlv hp10
    have hlc : ops.pow 10 P.levels = 1 := by rw [hlv]; exact hp10
    have hj := hrng P.tree_seed 0 (1 - P.branch_ratio_variance) 1 (by linarith)
    have hfuel : Nat.ceil (ops.pow 10 P.levels) + 1 = 1 + 1 := by
      rw [hlc]
      norm_num
    have hcond : (P.branch_ratio *
        rng.nextf P.tree_seed 0 (1 - P.branch_ratio_variance) 1) *
        ops.pow 10 P.levels ≤ 1 := by
      rw [hlc]
      have : P.branch_ratio * rng.nextf P.tree_seed 0 (1 - P.branch_ratio_variance) 1 ≤
          1/2 := le_trans (mul_le_of_le_one_right (by linarith) hj.2) hbr2
      linarith
    simp only [TREE.build, hfuel]
    simp only [construct]
    rw [if_pos hcond]
    exact ⟨_, _, rfl, rfl, rfl⟩


/-- Witness for C7: at the concrete parameter set, oracle and PRNG, the
levels-0 build produces the single-trunk singleton, and the fueled
construction succeeds at a concrete input. -/
theorem tree_construct_terminates_witness :
    (construct treeOps0 rng0 paramsLevels0 1 2 0 (1/20) 1).isSome = true ∧
    ∃ s pc, TREE.build treeOps0 rng0 paramsLevels0 = some (XForm.scale s, [TNode.curve pc]) ∧
      pc.pos_r.length = 2 ∧
      pc.leaf_radius = treeOps0.sqrt (paramsLevels0.leaf_area_ratio /
          treeOps0.pow 10 paramsLevels0.levels) * paramsLevels0.tree_height *
        rng0.nextf paramsLevels0.tree_seed 1 (1/2) (5/4) := by
  constructor
  · exact tree_construct_terminates.1 treeOps0 rng0 paramsLevels0
      (by norm_num [paramsLevels0]) (by norm_num [paramsLevels0])
      (by norm_num [paramsLevels0]) (by norm_num [paramsLevels0])
      (by norm_num [paramsLevels0]) (by norm_num [paramsLevels0])
      (by norm_num [paramsLevels0]) (by norm_num [paramsLevels0])
      (fun s k a b h => ⟨le_refl a, h⟩) 1 2 0 (1/20) 1
      (by norm_num)
  · exact tree_construct_terminates.2 treeOps0 rng0 paramsLevels0
      (by norm_num [paramsLevels0]) (by norm_num [paramsLevels0])
      (by norm_num [paramsLevels0]) (by norm_num [paramsLevels0])
      (by norm_num [paramsLevels0]) (by norm_num [paramsLevels0])
      (by norm_num [paramsLevels0]) (by norm_num [paramsLevels0])
      (fun s k a b h => ⟨le_refl a, h⟩) (by norm_num [paramsLevels0]) rfl

end Shoreline
